import Mathlib

/-!
# Verification of the weeports report-generation pipeline

Shallow embedding of the Go sources of `y3ro/weeports` (the file
`weeports.go` and the two unnamed historical snapshots `part_000`,
`part_001`).  Go strings are modelled as `List Char`; Go slices as
`List`; the Go maps `map[int][]*gitlab.Issue` and `map[int]string` as
association lists with the corresponding lookup functions (a read of a
missing key in Go yields the zero value, here the empty string); the
network fetches are parametrized away: each embedded function takes the
upstream query result as an argument.  The in-place `slices.Delete`
loops of the source are embedded index-by-index, exactly as written.
-/

/-- Go strings, modelled as lists of characters. -/
abbrev Str := List Char

/-- Character data of a Lean string literal. -/
def str (s : String) : Str := s.data

/-- The CRLF line terminator used throughout the report. -/
def crlf : Str := ['\r', '\n']

/-- A calendar date, as used by `time.Time` for `Format` and by
`gitlab.ISOTime.String`. -/
structure Date where
  year : Nat
  month : Nat
  day : Nat
deriving DecidableEq, Repr

/-- An issue record, the fields of `gitlab.Issue` the pipeline reads:
`Title`, `ProjectID`, `MovedToID`, `DueDate` (a nullable `ISOTime`),
`WebURL`, and `Assignee` (a nullable record of which only `.ID` is
read, so it is embedded as the optional identifier). -/
structure Issue where
  title : Str
  projectId : Int
  movedToId : Int
  dueDate : Option Date
  webUrl : Str
  assignee : Option Int
deriving DecidableEq, Repr

/-- A merge-request record, the fields of `gitlab.MergeRequest` the
pipeline reads: `Title`, `SourceBranch`, `WebURL`. -/
structure MergeRequest where
  title : Str
  sourceBranch : Str
  webUrl : Str
deriving DecidableEq, Repr

/-- Decimal digit characters, structured on a fuel argument so that the
kernel can evaluate it; `fuel` bounds the number of digits still to be
produced and is never exhausted when `natStr` supplies it. -/
def natStrAux : Nat → Nat → Str
  | 0, _ => []
  | fuel + 1, n =>
    (if 10 ≤ n then natStrAux fuel (n / 10) else []) ++ [Char.ofNat (48 + n % 10)]

/-- Decimal digit characters of a natural number, as produced by Go
`strconv.Itoa` on a non-negative value (`n + 1` always exceeds the
number of decimal digits of `n`). -/
def natStr (n : Nat) : Str := natStrAux (n + 1) n

/-- Go `Format` zero-pads the `01`/`02` layout tokens to width 2. -/
def pad2 (n : Nat) : Str := if n < 10 then '0' :: natStr n else natStr n

/-- Go `Format` zero-pads the `2006` layout token to width 4. -/
def pad4 (n : Nat) : Str :=
  if n < 10 then str "000" ++ natStr n
  else if n < 100 then str "00" ++ natStr n
  else if n < 1000 then str "0" ++ natStr n
  else natStr n

/-- Go `time.Time.Format` restricted to the layout tokens that occur in
this repository: `2006` (year), `01` (month), `02` (day of month), and
literal characters.  Tokens are recognised greedily left to right,
exactly as Go's `nextStdChunk` does on these layouts. -/
def goFormat (d : Date) : Str → Str
  | '2' :: '0' :: '0' :: '6' :: rest => pad4 d.year ++ goFormat d rest
  | '0' :: '1' :: rest => pad2 d.month ++ goFormat d rest
  | '0' :: '2' :: rest => pad2 d.day ++ goFormat d rest
  | c :: rest => c :: goFormat d rest
  | [] => []

/-- `gitlab.ISOTime.String`, i.e. `Format("2006-01-02")`. -/
def isoTimeString (d : Date) : Str := goFormat d (str "2006-01-02")

/-- The character class of the Go regular expression `[^a-zA-Z0-9]`
(negated): `true` exactly on the ASCII letters and digits; the numeric
bounds are the code points of `a`/`z` (97/122), `A`/`Z` (65/90) and
`0`/`9` (48/57). -/
def isAsciiAlnum (c : Char) : Bool :=
  decide (97 ≤ c.toNat ∧ c.toNat ≤ 122) ||
  decide (65 ≤ c.toNat ∧ c.toNat ≤ 90) ||
  decide (48 ≤ c.toNat ∧ c.toNat ≤ 57)

/-- `strings.ToLower`, restricted to one character.  On the ASCII
letters `A`-`Z` (code points 65-90) Go adds 32; `slugify` only ever
applies it to ASCII characters, where Unicode and ASCII lowering
agree. -/
def toLowerGo (c : Char) : Char :=
  if 65 ≤ c.toNat ∧ c.toNat ≤ 90 then Char.ofNat (c.toNat + 32) else c

/-- `slugify` from `part_001`/`part_000`: delete every character that
the regular expression `[^a-zA-Z0-9]` matches, then lower-case the
remainder. -/
def slugify (inputString : Str) : Str :=
  (inputString.filter isAsciiAlnum).map toLowerGo

/-- Go `slices.Delete(s, i, j)`: remove the elements of `s` with
indices in `[i, j)`. -/
def deleteRange (l : List α) (i j : Nat) : List α :=
  l.take i ++ l.drop j

/-- The moved-issue removal loop of `fetchClosedLastWeekIssues` in
`weeports.go` (lines 171-177): for increasing `i`, when the issue at
`i` has a non-zero `MovedToID` the code calls
`slices.Delete(issues, i, i)` — an empty range, so nothing is
removed. -/
def movedLoopW (issues : List Issue) (i : Nat) : List Issue :=
  if h : i < issues.length then
    let issue := issues.get ⟨i, h⟩
    let issues' := if issue.movedToId ≠ 0 then deleteRange issues i i else issues
    movedLoopW issues' (i + 1)
  else issues
termination_by issues.length - i
decreasing_by
  simp only [deleteRange]
  split
  · simp only [List.length_append, List.length_take, List.length_drop]
    omega
  · omega

/-- The moved-issue removal loop of `fetchClosedLastWeeksIssues` in
`part_001` (lines 248-254): same loop, but deleting the range
`[i, i+1)`, while still incrementing `i` — the element that slides
into position `i` is never examined. -/
def movedLoopV2 (issues : List Issue) (i : Nat) : List Issue :=
  if h : i < issues.length then
    let issue := issues.get ⟨i, h⟩
    let issues' := if issue.movedToId ≠ 0 then deleteRange issues i (i + 1) else issues
    movedLoopV2 issues' (i + 1)
  else issues
termination_by issues.length - i
decreasing_by
  simp only [deleteRange]
  split
  · simp only [List.length_append, List.length_take, List.length_drop]
    omega
  · omega

/-- `fetchClosedLastWeekIssues` of `weeports.go`, with the upstream
closed-issue query result passed in as `fetched`. -/
def fetchClosedLastWeekIssues (fetched : List Issue) : List Issue :=
  movedLoopW fetched 0

/-- `fetchClosedLastWeeksIssues` of `part_001`, with the upstream
closed-issue query result passed in as `fetched`. -/
def fetchClosedLastWeeksIssues (fetched : List Issue) : List Issue :=
  movedLoopV2 fetched 0

/-- `fetchToCloseThisWeekIssues`: appends the results of the
open-issue query for due date `"week"` and then for `"overdue"`; the
query itself is the parameter `fetchOpen`. -/
def fetchToCloseThisWeekIssues (fetchOpen : Str → List Issue) : List Issue :=
  let issues : List Issue := []
  let issues := issues ++ fetchOpen (str "week")
  issues ++ fetchOpen (str "overdue")

/-- The candidate-filter loop of `fetchIssueLastMergeRequest` (lines
332-339 of `part_001`): for increasing `i`, a candidate whose
slugified source branch differs from the slugified issue title is
removed with `slices.Delete(mergeRequests, i, i+1)` while `i` still
advances. -/
def mrFilterLoop (titleCleaned : Str) (mrs : List MergeRequest) (i : Nat) :
    List MergeRequest :=
  if h : i < mrs.length then
    let mr := mrs.get ⟨i, h⟩
    let mrs' :=
      if slugify mr.sourceBranch ≠ titleCleaned then deleteRange mrs i (i + 1) else mrs
    mrFilterLoop titleCleaned mrs' (i + 1)
  else mrs
termination_by mrs.length - i
decreasing_by
  simp only [deleteRange]
  split
  · simp only [List.length_append, List.length_take, List.length_drop]
    omega
  · omega

/-- `fetchIssueLastMergeRequest` of `part_001`/`part_000`, with the
upstream merge-request query result passed in as `mrs`.  The Go code
builds the query options with `AuthorID: &issue.Assignee.ID`; when the
issue has no assignee (`Assignee == nil`) this dereference panics,
embedded here as `Except.error ()`.  Otherwise the candidates are
filtered by the slugified-branch loop and the last survivor (or
`none` when none survive) is returned. -/
def fetchIssueLastMergeRequest (mrs : List MergeRequest) (issue : Issue) :
    Except Unit (Option MergeRequest) :=
  match issue.assignee with
  | none => .error ()
  | some _ =>
    let kept := mrFilterLoop (slugify issue.title) mrs 0
    .ok kept.getLast?

/-- One step of `groupIssuesByProject`:
`projectIssues[issue.ProjectID] = append(projectIssues[issue.ProjectID], issue)`
on the association-list representation of the Go map (a fresh key is
appended; an existing key's group is extended at the end). -/
def addIssue (m : List (Int × List Issue)) (iss : Issue) : List (Int × List Issue) :=
  match m with
  | [] => [(iss.projectId, [iss])]
  | (k, g) :: rest =>
    if k = iss.projectId then (k, g ++ [iss]) :: rest
    else (k, g) :: addIssue rest iss

/-- `groupIssuesByProject`: fold the issues in supply order into the
map. -/
def groupIssuesByProject (issues : List Issue) : List (Int × List Issue) :=
  issues.foldl addIssue []

/-- Go two-valued map read `g, ok := m[k]` on the grouped-issues map. -/
def lookupGroup (m : List (Int × List Issue)) (p : Int) : Option (List Issue) :=
  match m with
  | [] => none
  | (k, g) :: rest => if k = p then some g else lookupGroup rest p

/-- Go two-valued map read on the project-name map. -/
def lookupName (m : List (Int × Str)) (p : Int) : Option Str :=
  match m with
  | [] => none
  | (k, n) :: rest => if k = p then some n else lookupName rest p

/-- Go one-valued map read `projectNameMap[group]`: the zero value
(the empty string) when the key is missing. -/
def lookupNameD (m : List (Int × Str)) (p : Int) : Str :=
  (lookupName m p).getD []

/-- The per-issue lines of `formatGroupedIssues` in `weeports.go`
(lines 248-255): the title/link bullet, then an indented due-date line
when the issue has a due date. -/
def issueLinesW (issue : Issue) : Str :=
  str "\t* [" ++ issue.title ++ str "](" ++ issue.webUrl ++ str ")\r\n" ++
  (match issue.dueDate with
   | some d => str "\t\t* Due date: " ++ isoTimeString d ++ crlf
   | none => [])

/-- One project sub-block of `formatGroupedIssues` in `weeports.go`:
the `"* name:"` heading (name read from the map with zero-value
default) followed by the issue lines in group order. -/
def groupBlockW (nameMap : List (Int × Str)) (k : Int) (g : List Issue) : Str :=
  str "* " ++ lookupNameD nameMap k ++ str ":\r\n" ++ (g.map issueLinesW).flatten

/-- `formatGroupedIssues` of `weeports.go` (lines 240-260), applied to
one enumeration of the grouped map's entries (Go's `range` over a map
enumerates each entry once in an unspecified order, so the enumeration
is an explicit argument): empty groups are skipped (`continue`), the
remaining blocks are concatenated (`strings.Join` with separator
`""`). -/
def formatGroupedIssues (nameMap : List (Int × Str)) :
    List (Int × List Issue) → Str
  | [] => []
  | (k, g) :: rest =>
    (if g.isEmpty then [] else groupBlockW nameMap k g) ++
      formatGroupedIssues nameMap rest

/-- The per-issue lines of `formatGroupedIssues` in `part_001` (lines
355-365): two-space bullets, and additionally a merge-request line
when the per-issue correlation (`fetchIssueLastMergeRequest`, here the
parameter `mrOf`) returns one. -/
def issueLinesMR (mrOf : Issue → Option MergeRequest) (issue : Issue) : Str :=
  str "  * [" ++ issue.title ++ str "](" ++ issue.webUrl ++ str ")\r\n" ++
  (match issue.dueDate with
   | some d => str "    * Due date: " ++ isoTimeString d ++ crlf
   | none => []) ++
  (match mrOf issue with
   | some mr => str "    * Merge request: [" ++ mr.title ++ str "](" ++ mr.webUrl ++ str ")\r\n"
   | none => [])

/-- One project sub-block of `formatGroupedIssues` in `part_001`:
`"#### name:"` heading plus the issue lines. -/
def groupBlockMR (nameMap : List (Int × Str)) (mrOf : Issue → Option MergeRequest)
    (k : Int) (g : List Issue) : Str :=
  str "#### " ++ lookupNameD nameMap k ++ str ":\r\n" ++ (g.map (issueLinesMR mrOf)).flatten

/-- `formatGroupedIssues` of `part_001` (lines 347-371), applied to one
enumeration of the grouped map's entries. -/
def formatGroupedIssuesMR (nameMap : List (Int × Str))
    (mrOf : Issue → Option MergeRequest) : List (Int × List Issue) → Str
  | [] => []
  | (k, g) :: rest =>
    (if g.isEmpty then [] else groupBlockMR nameMap mrOf k g) ++
      formatGroupedIssuesMR nameMap mrOf rest

/-- `formatClosedLastWeekIssues` of `weeports.go` (lines 262-276):
empty issue list or empty grouping yields the empty string; otherwise
the section title (which embeds one blank line), the grouped body, and
one further CRLF.  `entries` is the enumeration of
`groupIssuesByProject issues` that the `range` in
`formatGroupedIssues` happens to use. -/
def formatClosedLastWeekIssues (nameMap : List (Int × Str))
    (entries : List (Int × List Issue)) (issues : List Issue) : Str :=
  if issues.isEmpty then []
  else if entries.isEmpty then []
  else str "Issues closed last week:\r\n\r\n" ++ formatGroupedIssues nameMap entries ++ crlf

/-- `formatToCloseThisWeekIssues` of `weeports.go` (lines 278-292):
identical shape with the other section title. -/
def formatToCloseThisWeekIssues (nameMap : List (Int × Str))
    (entries : List (Int × List Issue)) (issues : List Issue) : Str :=
  if issues.isEmpty then []
  else if entries.isEmpty then []
  else str "Issues to close this week:\r\n\r\n" ++ formatGroupedIssues nameMap entries ++ crlf

/-- The SMTP message assembled by `sendEmail` in `weeports.go` (lines
294-309): note the layout string `"2006-01-01"` — year, month, and
then the `01` month token again. -/
def sendEmailMessage (recipient msgBody : Str) (d : Date) : Str :=
  str "To: " ++ recipient ++ crlf ++
  str "Subject: Weekly report (" ++ goFormat d (str "2006-01-01") ++ str ")" ++ crlf ++
  crlf ++ msgBody ++ crlf

/-- The SMTP message assembled by `sendEmail` in `part_001`/`part_000`
(layout string `"2006-01-02"`). -/
def sendEmailMessageV2 (recipient msgBody : Str) (d : Date) : Str :=
  str "To: " ++ recipient ++ crlf ++
  str "Subject: Weekly report (" ++ goFormat d (str "2006-01-02") ++ str ")" ++ crlf ++
  crlf ++ msgBody ++ crlf

deriving instance DecidableEq for Except

/-! ## Demonstration records used by concrete evaluations -/

/-- A closed issue migrated to another tracker entry
(`MovedToID = 5`). -/
def movedIssueA : Issue :=
  { title := str "a", projectId := 1, movedToId := 5, dueDate := none,
    webUrl := str "ua", assignee := some 9 }

/-- A second migrated issue (`MovedToID = 6`), listed right after
`movedIssueA`. -/
def movedIssueB : Issue :=
  { movedIssueA with title := str "b", movedToId := 6, webUrl := str "ub" }

/-- An issue titled `"Fix 42"` with an assignee. -/
def issueFix42 : Issue :=
  { title := str "Fix 42", projectId := 1, movedToId := 0, dueDate := none,
    webUrl := str "uf", assignee := some 7 }

/-- Merge-request candidate `MR_A` with source branch `"fix-42"`. -/
def mrCandidateA : MergeRequest :=
  { title := str "MR A", sourceBranch := str "fix-42", webUrl := str "wa" }

/-- Merge-request candidate `MR_B` with source branch `"Fix42"`. -/
def mrCandidateB : MergeRequest :=
  { title := str "MR B", sourceBranch := str "Fix42", webUrl := str "wb" }

/-- A candidate whose branch `"other-work-1"` does not match
`"Fix 42"`. -/
def mrUnrelated1 : MergeRequest :=
  { title := str "U1", sourceBranch := str "other-work-1", webUrl := str "w1" }

/-- A second non-matching candidate, listed right after
`mrUnrelated1`. -/
def mrUnrelated2 : MergeRequest :=
  { title := str "U2", sourceBranch := str "other-work-2", webUrl := str "w2" }

/-! ## Character-level facts about `slugify` -/

/-- On every code point below 123 (which covers every ASCII letter and
digit), lower-casing an alphanumeric character yields an alphanumeric
character and lower-casing is idempotent. -/
theorem toLowerGo_bounded_facts : ∀ n < 123,
    isAsciiAlnum (Char.ofNat n) = true →
    isAsciiAlnum (toLowerGo (Char.ofNat n)) = true ∧
    toLowerGo (toLowerGo (Char.ofNat n)) = toLowerGo (Char.ofNat n) := by decide

/-- Alphanumeric characters stay alphanumeric under `toLowerGo`, which
is idempotent on them. -/
theorem toLowerGo_alnum (c : Char) (h : isAsciiAlnum c = true) :
    isAsciiAlnum (toLowerGo c) = true ∧ toLowerGo (toLowerGo c) = toLowerGo c := by
  have hb : c.toNat < 123 := by
    unfold isAsciiAlnum at h
    simp only [Bool.or_eq_true, decide_eq_true_eq] at h
    omega
  have hfacts := toLowerGo_bounded_facts c.toNat hb
  rw [Char.ofNat_toNat] at hfacts
  exact hfacts h

/-- Filtering and re-lowering a fully alphanumeric, already lowered
list is the identity. -/
theorem slugify_fixed (l : Str) (h : ∀ c ∈ l, isAsciiAlnum c = true) :
    ((l.map toLowerGo).filter isAsciiAlnum).map toLowerGo = l.map toLowerGo := by
  induction l with
  | nil => rfl
  | cons c l ih =>
    have hc := toLowerGo_alnum c (h c (List.mem_cons_self c l))
    simp only [List.map_cons, List.filter_cons, hc.1, if_pos, List.map_cons, hc.2]
    rw [ih (fun x hx => h x (List.mem_cons_of_mem c hx))]

/-! ## Claim theorems: slugify, open-issue union, assignee precondition -/

/-- Claim C4: `slugify` is idempotent on every string, and it
identifies `"Fix Bug-42!"` with `"fixbug42"` (case- and
punctuation-insensitivity). -/
theorem slugify_idempotent_and_insensitive (x : Str) :
    slugify (slugify x) = slugify x ∧
    slugify (str "Fix Bug-42!") = slugify (str "fixbug42") := by
  constructor
  · show slugify ((x.filter isAsciiAlnum).map toLowerGo) = slugify x
    unfold slugify
    exact slugify_fixed (x.filter isAsciiAlnum)
      (fun c hc => List.of_mem_filter hc)
  · decide

/-- Claim C6: `fetchToCloseThisWeekIssues` returns exactly the
`"week"` query results followed by the `"overdue"` query results, and
every issue occurs as many times as it occurs in the two results
together, so an issue present in both appears twice. -/
theorem fetchToCloseThisWeekIssues_concat (fetchOpen : Str → List Issue) :
    fetchToCloseThisWeekIssues fetchOpen =
      fetchOpen (str "week") ++ fetchOpen (str "overdue") ∧
    ∀ i : Issue, (fetchToCloseThisWeekIssues fetchOpen).count i =
      (fetchOpen (str "week")).count i + (fetchOpen (str "overdue")).count i := by
  refine ⟨rfl, fun i => ?_⟩
  show ((fetchOpen (str "week") ++ fetchOpen (str "overdue")).count i) = _
  exact List.count_append i _ _

/-- Claim C10: `fetchIssueLastMergeRequest` reads
`issue.Assignee.ID` unconditionally, so the nil-pointer crash branch
is taken exactly when the issue has no assignee, and with an assignee
the call always returns a value. -/
theorem fetchIssueLastMergeRequest_requires_assignee
    (mrs : List MergeRequest) (issue : Issue) :
    (issue.assignee = none →
      fetchIssueLastMergeRequest mrs issue = .error ()) ∧
    (issue.assignee ≠ none →
      fetchIssueLastMergeRequest mrs issue =
        .ok (mrFilterLoop (slugify issue.title) mrs 0).getLast?) := by
  constructor
  · intro h
    unfold fetchIssueLastMergeRequest
    rw [h]
  · intro h
    unfold fetchIssueLastMergeRequest
    match hx : issue.assignee with
    | none => exact absurd hx h
    | some a => rfl

/-- Witness for claim C10 at a concrete assignee-less issue: the crash
branch is reached. -/
theorem fetchIssueLastMergeRequest_requires_assignee_witness :
    fetchIssueLastMergeRequest [mrCandidateA] { issueFix42 with assignee := none } =
      .error () :=
  (fetchIssueLastMergeRequest_requires_assignee [mrCandidateA]
    { issueFix42 with assignee := none }).1 rfl

/-! ## Claim theorems: the broken moved-to filter and the broken
candidate filter -/

/-- Claim C1 (failing evaluation): the moved-to filter removes
nothing.  In `weeports.go` the call `slices.Delete(issues, i, i)`
deletes the empty range, so the single migrated issue `movedIssueA`
survives; in `part_001` the `slices.Delete(issues, i, i+1)` call
shifts the next element into the deleted slot while `i` still
advances, so of two adjacent migrated issues the second survives.  The
spec requires the output to be the input with every non-zero
`MovedToID` issue removed, i.e. `[]` in both runs. -/
theorem fetchClosed_moved_filter_bug :
    movedIssueA.movedToId ≠ 0 ∧ movedIssueB.movedToId ≠ 0 ∧
    fetchClosedLastWeekIssues [movedIssueA] = [movedIssueA] ∧
    fetchClosedLastWeeksIssues [movedIssueA, movedIssueB] = [movedIssueB] := by
  refine ⟨by decide, by decide, ?_, ?_⟩
  · simp [fetchClosedLastWeekIssues, movedLoopW, deleteRange, movedIssueA]
  · simp [fetchClosedLastWeeksIssues, movedLoopV2, deleteRange, movedIssueA, movedIssueB]

/-- Claim C2 (failing evaluation, plus the spec's own example): with
the two adjacent non-matching candidates `mrUnrelated1, mrUnrelated2`
for issue `"Fix 42"`, the filter loop of `fetchIssueLastMergeRequest`
deletes the first and skips over the second, so the function returns
`mrUnrelated2` even though zero candidates match — the spec requires
`none`.  The spec's positive example does hold: with candidates
`[MR_A(branch="fix-42"), MR_B(branch="Fix42")]` both match and the
last-listed `MR_B` is returned. -/
theorem fetchIssueLastMergeRequest_skip_bug :
    slugify mrUnrelated1.sourceBranch ≠ slugify issueFix42.title ∧
    slugify mrUnrelated2.sourceBranch ≠ slugify issueFix42.title ∧
    fetchIssueLastMergeRequest [mrUnrelated1, mrUnrelated2] issueFix42 =
      .ok (some mrUnrelated2) ∧
    fetchIssueLastMergeRequest [mrCandidateA, mrCandidateB] issueFix42 =
      .ok (some mrCandidateB) := by
  refine ⟨by decide, by decide, ?_, ?_⟩
  · simp [fetchIssueLastMergeRequest, mrFilterLoop, deleteRange,
      issueFix42, mrUnrelated1, mrUnrelated2, slugify, isAsciiAlnum, toLowerGo, str]
  · simp [fetchIssueLastMergeRequest, mrFilterLoop, deleteRange,
      issueFix42, mrCandidateA, mrCandidateB, slugify, isAsciiAlnum, toLowerGo, str]

/-- Claim C9 (failing evaluation): `sendEmail` in `weeports.go`
formats the run date with the Go layout string `"2006-01-01"`, whose
final token is the month again, so a run on 2026-10-11 puts
`2026-10-10` in the subject and the actual run date appears nowhere in
the message; the snapshots' `sendEmail` uses the correct layout
`"2006-01-02"` and does embed the run date. -/
theorem sendEmail_subject_wrong_day :
    goFormat ⟨2026, 10, 11⟩ (str "2006-01-01") = str "2026-10-10" ∧
    (str "2026-10-10" <:+: sendEmailMessage (str "m@x") (str "body") ⟨2026, 10, 11⟩) ∧
    ¬ (str "2026-10-11" <:+: sendEmailMessage (str "m@x") (str "body") ⟨2026, 10, 11⟩) ∧
    (str "2026-10-11" <:+: sendEmailMessageV2 (str "m@x") (str "body") ⟨2026, 10, 11⟩) := by
  decide

/-! ## Structure of the grouped-issues map -/

/-- Effect of one `addIssue` step on a map read. -/
theorem lookupGroup_addIssue (m : List (Int × List Issue)) (iss : Issue) (p : Int) :
    lookupGroup (addIssue m iss) p =
      if p = iss.projectId then some ((lookupGroup m p).getD [] ++ [iss])
      else lookupGroup m p := by
  induction m with
  | nil =>
    by_cases hp : p = iss.projectId <;>
      simp [addIssue, lookupGroup, hp, eq_comm]
  | cons e rest ih =>
    obtain ⟨k, g⟩ := e
    by_cases hk : k = iss.projectId <;> by_cases hp : k = p
    · have hp2 : p = iss.projectId := hp.symm.trans hk
      simp [addIssue, lookupGroup, hk, hp, hp2]
    · have hp2 : ¬ p = iss.projectId := fun h => hp (hk.trans h.symm)
      have hp3 : ¬ iss.projectId = p := fun h => hp (hk.trans h)
      simp [addIssue, lookupGroup, hk, hp, hp2, hp3]
    · have hp2 : ¬ p = iss.projectId := fun h => hk (hp.trans h)
      simp [addIssue, lookupGroup, hk, hp, hp2]
    · simp [addIssue, lookupGroup, hk, hp, ih]

/-- Map reads after folding a batch of issues into the map. -/
theorem lookupGroup_foldl_addIssue (issues : List Issue)
    (acc : List (Int × List Issue)) (p : Int) :
    lookupGroup (issues.foldl addIssue acc) p =
      match lookupGroup acc p with
      | some g => some (g ++ issues.filter (fun i => i.projectId == p))
      | none =>
        if issues.filter (fun i => i.projectId == p) = [] then none
        else some (issues.filter (fun i => i.projectId == p)) := by
  induction issues generalizing acc with
  | nil =>
    cases h : lookupGroup acc p <;> simp [h]
  | cons i is ih =>
    rw [List.foldl_cons, ih (addIssue acc i), lookupGroup_addIssue]
    by_cases hp : p = i.projectId
    · have hf : (List.filter (fun i => i.projectId == p) (i :: is)) =
          i :: is.filter (fun i => i.projectId == p) := by
        simp [List.filter_cons, hp.symm]
      rw [hf, if_pos hp]
      cases h : lookupGroup acc p <;> simp [h, List.append_assoc]
    · have hq : ¬ i.projectId = p := fun h => hp h.symm
      have hf : (List.filter (fun i => i.projectId == p) (i :: is)) =
          is.filter (fun i => i.projectId == p) := by
        simp [List.filter_cons, hq]
      rw [hf, if_neg hp]

/-- One `addIssue` step adds exactly one to the total of the group
sizes. -/
theorem sum_lengths_addIssue (m : List (Int × List Issue)) (iss : Issue) :
    ((addIssue m iss).map (fun e => e.2.length)).sum =
      (m.map (fun e => e.2.length)).sum + 1 := by
  induction m with
  | nil => simp [addIssue]
  | cons e rest ih =>
    obtain ⟨k, g⟩ := e
    by_cases hk : k = iss.projectId <;> simp [addIssue, hk, ih] <;> omega

/-- Folding a batch of issues adds the batch size to the total of the
group sizes. -/
theorem sum_lengths_foldl_addIssue (issues : List Issue)
    (acc : List (Int × List Issue)) :
    ((issues.foldl addIssue acc).map (fun e => e.2.length)).sum =
      (acc.map (fun e => e.2.length)).sum + issues.length := by
  induction issues generalizing acc with
  | nil => simp
  | cons i is ih =>
    rw [List.foldl_cons, ih, sum_lengths_addIssue]
    simp only [List.length_cons]
    omega

/-- `addIssue` never creates an empty group. -/
theorem addIssue_groups_ne_nil (m : List (Int × List Issue)) (iss : Issue)
    (h : ∀ e ∈ m, e.2 ≠ []) : ∀ e ∈ addIssue m iss, e.2 ≠ [] := by
  induction m with
  | nil =>
    intro e he
    simp [addIssue] at he
    simp [he]
  | cons f rest ih =>
    obtain ⟨k, g⟩ := f
    intro e he
    by_cases hk : k = iss.projectId
    · simp [addIssue, hk] at he
      rcases he with he | he
      · simp [he]
      · exact h e (List.mem_cons_of_mem _ he)
    · simp [addIssue, hk] at he
      rcases he with he | he
      · exact h e (by simp [he])
      · exact ih (fun x hx => h x (List.mem_cons_of_mem _ hx)) e he

/-- Groups stay non-empty under a fold of `addIssue` steps. -/
theorem foldl_addIssue_groups_ne_nil (issues : List Issue)
    (acc : List (Int × List Issue)) (h : ∀ e ∈ acc, e.2 ≠ []) :
    ∀ e ∈ issues.foldl addIssue acc, e.2 ≠ [] := by
  induction issues generalizing acc with
  | nil => exact h
  | cons i is ih =>
    exact ih (addIssue acc i) (addIssue_groups_ne_nil acc i h)

/-- The keys after an `addIssue` step are the old keys plus possibly
the new issue's project identifier. -/
theorem mem_keys_addIssue (m : List (Int × List Issue)) (iss : Issue) (q : Int) :
    q ∈ (addIssue m iss).map Prod.fst ↔
      q ∈ m.map Prod.fst ∨ q = iss.projectId := by
  induction m with
  | nil => simp [addIssue]
  | cons e rest ih =>
    obtain ⟨k, g⟩ := e
    by_cases hk : k = iss.projectId
    · subst hk
      simp [addIssue]
      tauto
    · simp only [addIssue, if_neg hk, List.map_cons, List.mem_cons, ih]
      tauto

/-- An `addIssue` step keeps the key list duplicate-free. -/
theorem nodup_keys_addIssue (m : List (Int × List Issue)) (iss : Issue)
    (h : (m.map Prod.fst).Nodup) : ((addIssue m iss).map Prod.fst).Nodup := by
  induction m with
  | nil => simp [addIssue]
  | cons e rest ih =>
    obtain ⟨k, g⟩ := e
    simp only [List.map_cons, List.nodup_cons] at h
    by_cases hk : k = iss.projectId
    · simpa [addIssue, hk, List.nodup_cons] using h
    · simp only [addIssue, if_neg hk, List.map_cons, List.nodup_cons]
      refine ⟨fun hmem => ?_, ih h.2⟩
      rcases (mem_keys_addIssue rest iss k).1 hmem with hmem | hmem
      · exact h.1 hmem
      · exact hk hmem

/-- Folding issues into the map keeps the key list duplicate-free. -/
theorem nodup_keys_foldl_addIssue (issues : List Issue)
    (acc : List (Int × List Issue)) (h : (acc.map Prod.fst).Nodup) :
    ((issues.foldl addIssue acc).map Prod.fst).Nodup := by
  induction issues generalizing acc with
  | nil => exact h
  | cons i is ih =>
    exact ih (addIssue acc i) (nodup_keys_addIssue acc i h)

/-- `addIssue` never returns the empty map. -/
theorem addIssue_ne_nil (m : List (Int × List Issue)) (iss : Issue) :
    addIssue m iss ≠ [] := by
  cases m with
  | nil => simp [addIssue]
  | cons e rest =>
    obtain ⟨k, g⟩ := e
    by_cases hk : k = iss.projectId <;> simp [addIssue, hk]

/-- A fold starting from a non-empty map stays non-empty. -/
theorem foldl_addIssue_ne_nil (issues : List Issue)
    (acc : List (Int × List Issue)) (h : acc ≠ []) :
    issues.foldl addIssue acc ≠ [] := by
  induction issues generalizing acc with
  | nil => exact h
  | cons i is ih => exact ih (addIssue acc i) (addIssue_ne_nil acc i)

/-- Grouping a non-empty issue list yields a non-empty map. -/
theorem groupIssuesByProject_ne_nil (issues : List Issue) (h : issues ≠ []) :
    groupIssuesByProject issues ≠ [] := by
  match issues with
  | [] => exact absurd rfl h
  | i :: is =>
    show (i :: is).foldl addIssue [] ≠ []
    rw [List.foldl_cons]
    exact foldl_addIssue_ne_nil is (addIssue [] i) (addIssue_ne_nil [] i)

/-- No group of `groupIssuesByProject` is empty. -/
theorem groupIssuesByProject_groups_ne_nil (issues : List Issue) :
    ∀ e ∈ groupIssuesByProject issues, e.2 ≠ [] :=
  foldl_addIssue_groups_ne_nil issues [] (by simp)

/-- An ordinary closed issue in project 2, used by witnesses. -/
def closedIssueC : Issue :=
  { title := str "c", projectId := 2, movedToId := 0, dueDate := none,
    webUrl := str "uc", assignee := some 9 }

/-- Claim C3: `groupIssuesByProject` partitions the supplied issues by
project identifier.  The group stored under `p` is exactly the
sub-list of input issues whose project identifier is `p` in their
supplied order (so membership is determined solely by the project
identifier and relative order is preserved), a key is present exactly
when that sub-list is non-empty (so no group is empty), the group
sizes add up to the input length, and keys are not duplicated (so
every issue lands in exactly one group). -/
theorem groupIssuesByProject_partition (issues : List Issue) :
    (∀ p : Int, lookupGroup (groupIssuesByProject issues) p =
        if issues.filter (fun i => i.projectId == p) = [] then none
        else some (issues.filter (fun i => i.projectId == p))) ∧
    ((groupIssuesByProject issues).map (fun e => e.2.length)).sum = issues.length ∧
    (∀ e ∈ groupIssuesByProject issues, e.2 ≠ []) ∧
    ((groupIssuesByProject issues).map Prod.fst).Nodup := by
  refine ⟨fun p => ?_, ?_, groupIssuesByProject_groups_ne_nil issues, ?_⟩
  · show lookupGroup (issues.foldl addIssue []) p = _
    rw [lookupGroup_foldl_addIssue issues [] p]
    rfl
  · show ((issues.foldl addIssue []).map (fun e => e.2.length)).sum = _
    rw [sum_lengths_foldl_addIssue issues []]
    simp
  · exact nodup_keys_foldl_addIssue issues [] (by simp)

/-- Witness for claim C3 on the concrete batch
`[issueFix42, closedIssueC, movedIssueA]` (projects 1, 2, 1): the
group under key 1 is the filtered sub-list in supplied order and is
non-empty. -/
theorem groupIssuesByProject_partition_witness :
    lookupGroup (groupIssuesByProject [issueFix42, closedIssueC, movedIssueA]) 1 =
      some [issueFix42, movedIssueA] ∧
    ((1 : Int), [issueFix42, movedIssueA]).2 ≠ ([] : List Issue) := by
  have h := groupIssuesByProject_partition [issueFix42, closedIssueC, movedIssueA]
  constructor
  · rw [h.1 1]
    decide
  · exact h.2.2.1 (1, [issueFix42, movedIssueA]) (by decide)

/-! ## Shape of rendered sections -/

/-- A decimal rendering ends with the digit character of the last
decimal digit. -/
theorem natStr_tail (n : Nat) :
    ∃ t, natStr n = t ++ [Char.ofNat (48 + n % 10)] :=
  ⟨if 10 ≤ n then natStrAux n (n / 10) else [], by
    show natStrAux (n + 1) n = _
    rw [natStrAux]⟩

/-- Digit characters are not line-break characters. -/
theorem digit_char_not_break : ∀ m < 10,
    Char.ofNat (48 + m) ≠ '\n' ∧ Char.ofNat (48 + m) ≠ '\r' := by decide

/-- A padded two-digit rendering also ends with the last decimal
digit. -/
theorem pad2_tail (n : Nat) :
    ∃ t, pad2 n = t ++ [Char.ofNat (48 + n % 10)] := by
  obtain ⟨t, ht⟩ := natStr_tail n
  unfold pad2
  by_cases h : n < 10
  · exact ⟨'0' :: t, by simp [h, ht]⟩
  · exact ⟨t, by simp [h, ht]⟩

/-- An ISO date rendering ends with the last digit of the day. -/
theorem isoTimeString_tail (d : Date) :
    ∃ t, isoTimeString d = t ++ [Char.ofNat (48 + d.day % 10)] := by
  obtain ⟨t, ht⟩ := pad2_tail d.day
  refine ⟨pad4 d.year ++ '-' :: (pad2 d.month ++ '-' :: t), ?_⟩
  show goFormat d (str "2006-01-02") = _
  simp only [str, goFormat, ht]
  simp

/-- Prepending text preserves a non-break-then-CRLF tail. -/
theorem tail_prepend (p s : Str)
    (h : ∃ t c, c ≠ '\n' ∧ s = t ++ ([c] ++ crlf)) :
    ∃ t c, c ≠ '\n' ∧ p ++ s = t ++ ([c] ++ crlf) := by
  obtain ⟨t, c, hc, hs⟩ := h
  exact ⟨p ++ t, c, hc, by rw [hs, List.append_assoc]⟩

/-- The per-issue lines end with a non-break character (`)` or a
digit) followed by one CRLF. -/
theorem issueLinesW_tail (issue : Issue) :
    ∃ t c, c ≠ '\n' ∧ issueLinesW issue = t ++ ([c] ++ crlf) := by
  unfold issueLinesW
  cases hd : issue.dueDate with
  | none =>
    refine ⟨str "\t* [" ++ issue.title ++ str "](" ++ issue.webUrl, ')', by decide, ?_⟩
    simp [str, crlf]
  | some d =>
    obtain ⟨t, ht⟩ := isoTimeString_tail d
    have hc := digit_char_not_break (d.day % 10) (Nat.mod_lt _ (by omega))
    refine ⟨str "\t* [" ++ issue.title ++ str "](" ++ issue.webUrl ++ str ")\r\n" ++
      str "\t\t* Due date: " ++ t, Char.ofNat (48 + d.day % 10), hc.1, ?_⟩
    simp [str, crlf, ht]

/-- The concatenated issue lines of a non-empty group keep that
tail. -/
theorem flatten_issueLinesW_tail (g : List Issue) (h : g ≠ []) :
    ∃ t c, c ≠ '\n' ∧ (g.map issueLinesW).flatten = t ++ ([c] ++ crlf) := by
  induction g with
  | nil => exact absurd rfl h
  | cons i rest ih =>
    cases hr : rest with
    | nil =>
      obtain ⟨t, c, hc, hi⟩ := issueLinesW_tail i
      exact ⟨t, c, hc, by simp [hi]⟩
    | cons j js =>
      rw [List.map_cons, List.flatten_cons]
      exact tail_prepend _ _ (hr ▸ ih (by simp [hr]))

/-- A project sub-block of a non-empty group has the same tail. -/
theorem groupBlockW_tail (nameMap : List (Int × Str)) (k : Int) (g : List Issue)
    (h : g ≠ []) :
    ∃ t c, c ≠ '\n' ∧ groupBlockW nameMap k g = t ++ ([c] ++ crlf) := by
  obtain ⟨t, c, hc, ht⟩ := flatten_issueLinesW_tail g h
  refine ⟨str "* " ++ lookupNameD nameMap k ++ str ":\r\n" ++ t, c, hc, ?_⟩
  unfold groupBlockW
  rw [ht]
  simp

/-- The grouped body over entries with non-empty groups, at least one
entry present, has the non-break-then-CRLF tail. -/
theorem formatGroupedIssues_tail (nameMap : List (Int × Str))
    (entries : List (Int × List Issue)) (hne : entries ≠ [])
    (hall : ∀ e ∈ entries, e.2 ≠ []) :
    ∃ t c, c ≠ '\n' ∧ formatGroupedIssues nameMap entries = t ++ ([c] ++ crlf) := by
  induction entries with
  | nil => exact absurd rfl hne
  | cons e rest ih =>
    obtain ⟨k, g⟩ := e
    have hg : g ≠ [] := hall (k, g) (List.mem_cons_self _ _)
    have hgE : g.isEmpty = false := by simpa using hg
    by_cases hr : rest = []
    · subst hr
      obtain ⟨t, c, hc, ht⟩ := groupBlockW_tail nameMap k g hg
      refine ⟨t, c, hc, ?_⟩
      simp [formatGroupedIssues, hgE, ht]
    · have hrest := ih hr (fun x hx => hall x (List.mem_cons_of_mem _ hx))
      have hstep : formatGroupedIssues nameMap ((k, g) :: rest) =
          (if g.isEmpty then [] else groupBlockW nameMap k g) ++
            formatGroupedIssues nameMap rest := rfl
      rw [hstep]
      exact tail_prepend _ _ hrest

/-- A rendered section `title ++ body ++ CRLF`, where the title starts
with a non-CR character and where the body has the
non-break-then-CRLF tail, is itself non-empty, does not start with a
blank line, and ends with exactly one blank line (a CRLF CRLF tail
but no CRLF CRLF CRLF tail). -/
theorem section_shape (c0 : Char) (rest0 body : Str) (hc0 : c0 ≠ '\r')
    (hbody : ∃ t c, c ≠ '\n' ∧ body = t ++ ([c] ++ crlf)) :
    ((c0 :: rest0) ++ body ++ crlf ≠ [] ∧
     ¬ crlf <+: ((c0 :: rest0) ++ body ++ crlf) ∧
     (crlf ++ crlf) <:+ ((c0 :: rest0) ++ body ++ crlf) ∧
     ¬ ((crlf ++ crlf) ++ crlf) <:+ ((c0 :: rest0) ++ body ++ crlf)) := by
  obtain ⟨t, c, hc, hb⟩ := hbody
  subst hb
  refine ⟨by simp, ?_, ?_, ?_⟩
  · rintro ⟨q, hq⟩
    have := congrArg List.head? hq
    simp [crlf] at this
    exact hc0 this.symm
  · refine ⟨(c0 :: rest0) ++ t ++ [c], ?_⟩
    simp [crlf]
  · rintro ⟨p, hp⟩
    have hrev := congrArg List.reverse hp
    simp [crlf] at hrev
    exact hc hrev.1.symm

/-- Claim C5: the section renderers `formatClosedLastWeekIssues` and
`formatToCloseThisWeekIssues` return the empty string when the issue
set (equivalently the grouping) is empty; on a non-empty grouping the
section is non-empty, never begins with a blank line (no leading
CRLF), and ends with exactly one trailing blank line (the text ends
in CRLF CRLF but not in CRLF CRLF CRLF).  `entries` is whichever
enumeration of the grouped map the `range` loop uses. -/
theorem renderSection_shape (nameMap : List (Int × Str)) (issues : List Issue)
    (entries : List (Int × List Issue))
    (hperm : entries.Perm (groupIssuesByProject issues)) :
    (issues = [] →
      formatClosedLastWeekIssues nameMap entries issues = [] ∧
      formatToCloseThisWeekIssues nameMap entries issues = []) ∧
    (issues ≠ [] →
      (formatClosedLastWeekIssues nameMap entries issues ≠ [] ∧
       ¬ crlf <+: formatClosedLastWeekIssues nameMap entries issues ∧
       (crlf ++ crlf) <:+ formatClosedLastWeekIssues nameMap entries issues ∧
       ¬ ((crlf ++ crlf) ++ crlf) <:+ formatClosedLastWeekIssues nameMap entries issues) ∧
      (formatToCloseThisWeekIssues nameMap entries issues ≠ [] ∧
       ¬ crlf <+: formatToCloseThisWeekIssues nameMap entries issues ∧
       (crlf ++ crlf) <:+ formatToCloseThisWeekIssues nameMap entries issues ∧
       ¬ ((crlf ++ crlf) ++ crlf) <:+ formatToCloseThisWeekIssues nameMap entries issues)) := by
  constructor
  · intro h
    subst h
    exact ⟨rfl, rfl⟩
  · intro hiss
    have hgne := groupIssuesByProject_ne_nil issues hiss
    have hene : entries ≠ [] := by
      intro he
      have hlen := hperm.length_eq
      rw [he] at hlen
      exact hgne (List.length_eq_zero.1 hlen.symm)
    have hall : ∀ e ∈ entries, e.2 ≠ [] :=
      fun e he => groupIssuesByProject_groups_ne_nil issues e (hperm.subset he)
    have hbody := formatGroupedIssues_tail nameMap entries hene hall
    have hissE : issues.isEmpty = false := by simpa using hiss
    have heneE : entries.isEmpty = false := by simpa using hene
    constructor
    · have hsec : formatClosedLastWeekIssues nameMap entries issues =
          ('I' :: str "ssues closed last week:\r\n\r\n") ++
            (formatGroupedIssues nameMap entries ++ crlf) := by
        simp [formatClosedLastWeekIssues, hissE, heneE]
        rfl
      rw [hsec]
      have hs := section_shape 'I' (str "ssues closed last week:\r\n\r\n")
        (formatGroupedIssues nameMap entries) (by decide) hbody
      simpa [List.append_assoc] using hs
    · have hsec : formatToCloseThisWeekIssues nameMap entries issues =
          ('I' :: str "ssues to close this week:\r\n\r\n") ++
            (formatGroupedIssues nameMap entries ++ crlf) := by
        simp [formatToCloseThisWeekIssues, hissE, heneE]
        rfl
      rw [hsec]
      have hs := section_shape 'I' (str "ssues to close this week:\r\n\r\n")
        (formatGroupedIssues nameMap entries) (by decide) hbody
      simpa [List.append_assoc] using hs

/-- Witness for claim C5 at the one-issue batch `[issueFix42]` with
its canonical grouping enumeration. -/
theorem renderSection_shape_witness :
    (crlf ++ crlf) <:+ formatClosedLastWeekIssues [((1 : Int), str "P1")]
        (groupIssuesByProject [issueFix42]) [issueFix42] ∧
    ¬ ((crlf ++ crlf) ++ crlf) <:+ formatClosedLastWeekIssues [((1 : Int), str "P1")]
        (groupIssuesByProject [issueFix42]) [issueFix42] ∧
    ¬ crlf <+: formatClosedLastWeekIssues [((1 : Int), str "P1")]
        (groupIssuesByProject [issueFix42]) [issueFix42] := by
  have h := (renderSection_shape [((1 : Int), str "P1")] [issueFix42]
      (groupIssuesByProject [issueFix42]) (List.Perm.refl _)).2 (by decide)
  exact ⟨h.1.2.2.1, h.1.2.2.2, h.1.2.1⟩

/-! ## Missing project names -/

/-- Prepending an explicit empty-name entry for an absent key changes
no default map read. -/
theorem lookupNameD_cons_default (nameMap : List (Int × Str)) (k : Int)
    (h : lookupName nameMap k = none) (j : Int) :
    lookupNameD ((k, []) :: nameMap) j = lookupNameD nameMap j := by
  have hstep : lookupName ((k, []) :: nameMap) j =
      if k = j then some [] else lookupName nameMap j := rfl
  by_cases hj : k = j
  · subst hj
    unfold lookupNameD
    rw [hstep, if_pos rfl, h]
    rfl
  · unfold lookupNameD
    rw [hstep, if_neg hj]

/-- Claim C7: when a project identifier `k` is absent from the
project-name map, `formatGroupedIssues` reads the zero value — the
empty string — as the heading name: the block for `k` is the heading
`"* :"` followed by the usual issue lines, and the whole rendering is
the same as with `k` explicitly mapped to the empty name, so a
missing name never prevents the section from being produced. -/
theorem formatGroupedIssues_missing_name (nameMap : List (Int × Str))
    (entries : List (Int × List Issue)) (k : Int)
    (h : lookupName nameMap k = none) :
    lookupNameD nameMap k = [] ∧
    (∀ g, groupBlockW nameMap k g = str "* :\r\n" ++ (g.map issueLinesW).flatten) ∧
    formatGroupedIssues nameMap entries =
      formatGroupedIssues ((k, []) :: nameMap) entries := by
  have hd : lookupNameD nameMap k = [] := by
    unfold lookupNameD
    simp [h]
  refine ⟨hd, fun g => ?_, ?_⟩
  · unfold groupBlockW
    rw [hd]
    rfl
  · induction entries with
    | nil => rfl
    | cons e rest ih =>
      obtain ⟨j, g⟩ := e
      show (if g.isEmpty then [] else groupBlockW nameMap j g) ++ _ =
        (if g.isEmpty then [] else groupBlockW ((k, []) :: nameMap) j g) ++ _
      rw [ih]
      have hb : groupBlockW nameMap j g = groupBlockW ((k, []) :: nameMap) j g := by
        unfold groupBlockW
        rw [lookupNameD_cons_default nameMap k h j]
      rw [hb]

/-- Witness for claim C7: key 3 is absent from the one-entry name map,
the heading name read for it is empty, and rendering with the missing
key equals rendering with the explicit empty name. -/
theorem formatGroupedIssues_missing_name_witness :
    lookupNameD [((1 : Int), str "P1")] 3 = [] ∧
    formatGroupedIssues [((1 : Int), str "P1")] [((3 : Int), [issueFix42])] =
      formatGroupedIssues [((3 : Int), []), ((1 : Int), str "P1")]
        [((3 : Int), [issueFix42])] := by
  have h := formatGroupedIssues_missing_name [((1 : Int), str "P1")]
    [((3 : Int), [issueFix42])] 3 (by decide)
  exact ⟨h.1, h.2.2⟩

/-! ## Order dependence of the grouped rendering -/

/-- The contribution of one map entry to `formatGroupedIssuesMR`:
nothing for an empty group (the loop's `continue`), the project
sub-block otherwise. -/
def grBlockOrSkip (nameMap : List (Int × Str)) (mrOf : Issue → Option MergeRequest)
    (e : Int × List Issue) : Str :=
  if e.2.isEmpty then [] else groupBlockMR nameMap mrOf e.1 e.2

/-- Claim C8 (amended): for fixed grouped issues, name map and
correlation results, the rendering is a function of the enumeration
order of the map entries — the concatenation of the per-entry
sub-blocks in enumeration order — and any two admissible enumerations
(permutations of the map's entries) produce the same multiset of
sub-blocks; the text itself is only identical when the enumeration
order coincides, which Go's map `range` does not guarantee. -/
theorem formatGroupedIssuesMR_enum (nameMap : List (Int × Str))
    (mrOf : Issue → Option MergeRequest)
    (entries1 entries2 : List (Int × List Issue)) (hp : entries1.Perm entries2) :
    formatGroupedIssuesMR nameMap mrOf entries1 =
      (entries1.map (grBlockOrSkip nameMap mrOf)).flatten ∧
    (entries1.map (grBlockOrSkip nameMap mrOf)).Perm
      (entries2.map (grBlockOrSkip nameMap mrOf)) := by
  have h1 : ∀ es : List (Int × List Issue),
      formatGroupedIssuesMR nameMap mrOf es =
        (es.map (grBlockOrSkip nameMap mrOf)).flatten := by
    intro es
    induction es with
    | nil => rfl
    | cons e rest ih =>
      obtain ⟨k, g⟩ := e
      simp only [List.map_cons, List.flatten_cons]
      rw [← ih]
      rfl
  exact ⟨h1 entries1, hp.map _⟩

/-- Witness for the amended claim C8 at a concrete two-project map
and its two enumeration orders. -/
theorem formatGroupedIssuesMR_enum_witness :
    formatGroupedIssuesMR [((1 : Int), str "P1")] (fun _ => none)
        [((1 : Int), [issueFix42]), ((2 : Int), [closedIssueC])] =
      ([((1 : Int), [issueFix42]), ((2 : Int), [closedIssueC])].map
        (grBlockOrSkip [((1 : Int), str "P1")] (fun _ => none))).flatten ∧
    ([((1 : Int), [issueFix42]), ((2 : Int), [closedIssueC])].map
        (grBlockOrSkip [((1 : Int), str "P1")] (fun _ => none))).Perm
      ([((2 : Int), [closedIssueC]), ((1 : Int), [issueFix42])].map
        (grBlockOrSkip [((1 : Int), str "P1")] (fun _ => none))) :=
  formatGroupedIssuesMR_enum [((1 : Int), str "P1")] (fun _ => none)
    [((1 : Int), [issueFix42]), ((2 : Int), [closedIssueC])]
    [((2 : Int), [closedIssueC]), ((1 : Int), [issueFix42])] (by decide)

/-- Claim C8 is refuted as stated: the grouped map of the two issues
`issueFix42` (project 1) and `closedIssueC` (project 2) has two
entries, both orders of which are admissible `range` enumerations
(they are permutations of the map's entries), and the two evaluations
of `formatGroupedIssuesMR` on them produce different text — the
project sub-blocks appear in a different order. -/
theorem formatGroupedIssuesMR_order_counterexample :
    [((2 : Int), [closedIssueC]), ((1 : Int), [issueFix42])].Perm
      (groupIssuesByProject [issueFix42, closedIssueC]) ∧
    formatGroupedIssuesMR [((1 : Int), str "P1"), ((2 : Int), str "P2")] (fun _ => none)
        (groupIssuesByProject [issueFix42, closedIssueC]) ≠
      formatGroupedIssuesMR [((1 : Int), str "P1"), ((2 : Int), str "P2")] (fun _ => none)
        [((2 : Int), [closedIssueC]), ((1 : Int), [issueFix42])] := by
  exact ⟨by decide, by decide⟩
